import Mathlib

/-!
Verification of the urbanicity metric-aggregation and scoring engine
(`src/urbanicity/metrics.py`, `score.py`, `validate.py`, `pipeline.py`).

The Python code is shallowly embedded over exact rationals (`ℚ`): every
numeric column is a `List ℚ`, `NaN` markers are modelled with `Option ℚ`
(`none` = NaN), and the geometric kernel (shapely clipping / containment
predicates, used by the code only through `gpd.overlay` and `gpd.sjoin`)
is passed in as an explicit oracle function, since the repository treats it
as an external library call.  `numpy.sqrt`, used only inside the
population-standard-deviation fallback of `robust_zscore`, has no exact
computable counterpart on `ℚ`, so `robust_zscore` takes the square-root
function as an explicit parameter; theorems that need a property of the
real square root (only `sqrt 0 = 0`) state it as a hypothesis.
-/

namespace Urbanicity

/-- Embeds `MAD_EPS = 1e-9` from `config.py`. -/
def MAD_EPS : ℚ := 1 / 1000000000

/-- Embeds `SIGNAL_SPARSITY_THRESHOLD = 0.05` from `config.py`. -/
def SIGNAL_SPARSITY_THRESHOLD : ℚ := 5 / 100

/-- Embeds `W_INTERSECTION = 0.50` from `config.py`. -/
def W_INTERSECTION : ℚ := 50 / 100

/-- Embeds `W_ROAD = 0.30` from `config.py`. -/
def W_ROAD : ℚ := 30 / 100

/-- Embeds `W_SIGNAL = 0.20` from `config.py`. -/
def W_SIGNAL : ℚ := 20 / 100

/-- Embeds `QUANTILE_HIGH = 0.70` from `config.py`. -/
def QUANTILE_HIGH : ℚ := 70 / 100

/-- Embeds `QUANTILE_LOW = 0.30` from `config.py`. -/
def QUANTILE_LOW : ℚ := 30 / 100

/-- Kernel-reducible maximum on `ℚ` (the lattice `max` does not reduce). -/
def maxQ (a b : ℚ) : ℚ := if a ≤ b then b else a

/-- Kernel-reducible minimum on `ℚ`. -/
def minQ (a b : ℚ) : ℚ := if a ≤ b then a else b

/-- Kernel-reducible absolute value on `ℚ`. -/
def absQ (a : ℚ) : ℚ := if a ≤ 0 then -a else a

/-- Insert a rational into an already-sorted list (ascending). -/
def insertSorted (x : ℚ) : List ℚ → List ℚ
  | [] => [x]
  | y :: ys => if x ≤ y then x :: y :: ys else y :: insertSorted x ys

/-- Ascending insertion sort, the order `pandas` uses for order statistics. -/
def sortQ (l : List ℚ) : List ℚ := l.foldr insertSorted []

/-- Embeds `pandas.Series.median`: middle element of the sorted values for an
odd count, mean of the two middle elements for an even count.  The empty case
(`NaN` in pandas) is mapped to `0`; it is never hit by a claim. -/
def median (xs : List ℚ) : ℚ :=
  let s := sortQ xs
  let n := xs.length
  if n = 0 then 0
  else if n % 2 = 1 then s.getD (n / 2) 0
  else (s.getD (n / 2 - 1) 0 + s.getD (n / 2) 0) / 2

/-- Embeds `pandas.Series.mean` (empty case mapped to `0`). -/
def meanQ (xs : List ℚ) : ℚ := xs.sum / xs.length

/-- Population variance, the square of `series.std(ddof=0)`. -/
def popVar (xs : List ℚ) : ℚ :=
  ((xs.map fun x => (x - meanQ xs) ^ 2).sum) / xs.length

/-- Embeds `Series.clip(lower=-10.0, upper=10.0)` applied to one value. -/
def clip10 (x : ℚ) : ℚ := maxQ (-10) (minQ 10 x)

/-- Embeds `robust_zscore` from `score.py`:

    median = series.median()
    mad = (series - median).abs().median()
    if mad < MAD_EPS:
        scale = series.std(ddof=0)
        if scale < MAD_EPS:
            return Series(0.0, index)
    else:
        scale = mad
    z = (series - median) / (scale + MAD_EPS)
    return z.clip(lower=-10.0, upper=10.0)

The square root used by `series.std` is the explicit parameter `sqrt`
(applied to the population variance). -/
def robust_zscore (sqrt : ℚ → ℚ) (xs : List ℚ) : List ℚ :=
  if median (xs.map fun x => absQ (x - median xs)) < MAD_EPS then
    if sqrt (popVar xs) < MAD_EPS then xs.map fun _ => 0
    else xs.map fun x => clip10 ((x - median xs) / (sqrt (popVar xs) + MAD_EPS))
  else
    xs.map fun x =>
      clip10 ((x - median xs) / (median (xs.map fun y => absQ (y - median xs)) + MAD_EPS))

/-- The scale estimator as the spec words it: the MAD when it clears `EPS`,
otherwise the population standard deviation (`sqrt` of the population
variance).  Stated separately from `robust_zscore` so the claim can be read
off against the source's nested branching. -/
def specScale (sqrt : ℚ → ℚ) (xs : List ℚ) : ℚ :=
  if MAD_EPS ≤ median (xs.map fun x => absQ (x - median xs)) then
    median (xs.map fun x => absQ (x - median xs))
  else sqrt (popVar xs)

/-- Signal-mode switch (`--signals on|off|auto` in `cli.py` / `score.py`). -/
inductive SignalMode
  | on
  | off
  | auto
deriving DecidableEq, Repr

/-- Input row of `compute_urbanicity_score`: the three per-hex densities. -/
structure MetricRow where
  intersection_density : ℚ
  road_density : ℚ
  signal_density : ℚ
deriving DecidableEq, Repr

/-- Embeds `_should_use_signals` from `score.py`.  In mode `auto` the rule is
`_signal_fraction(gdf) >= SIGNAL_SPARSITY_THRESHOLD` where the fraction is
the mean of the indicator `signal_density_per_km2 > 0`; on an empty frame
pandas yields `NaN` and `NaN >= 0.05` is false, hence the explicit
emptiness guard.  The fraction comparison `count/n ≥ 1/20` is stated
integrally as `n ≤ 20 * count`. -/
def should_use_signals (mode : SignalMode) (sig : List ℚ) : Bool :=
  match mode with
  | .on => true
  | .off => false
  | .auto => !sig.isEmpty && decide (sig.length ≤ 20 * (sig.countP fun x => decide (0 < x)))

/-- Output row of `compute_urbanicity_score`: z-scores (the signal one is
`none` when the stored column is `NaN`) and the composite score. -/
structure ScoreRow where
  z_intersection : ℚ
  z_road : ℚ
  z_signal : Option ℚ
  score : ℚ
deriving DecidableEq, Repr

/-- Result of `compute_urbanicity_score`: the per-hex rows plus the run
metadata the code stores in `result.attrs`. -/
structure ScoreResult where
  rows : List ScoreRow
  w_int_eff : ℚ
  w_road_eff : ℚ
  w_sig_eff : ℚ
  signals_used : Bool
deriving DecidableEq, Repr

/-- Builds the per-hex score rows by zipping the three z-score columns:
`score = w_int * z_int + w_road * z_road + w_sig * z_sig.fillna(0)`. -/
def mkScoreRows (wInt wRoad wSig : ℚ) :
    List ℚ → List ℚ → List (Option ℚ) → List ScoreRow
  | zi :: is, zr :: rs, zs :: ss =>
      ⟨zi, zr, zs, wInt * zi + wRoad * zr + wSig * zs.getD 0⟩ ::
        mkScoreRows wInt wRoad wSig is rs ss
  | _, _, _ => []

/-- Embeds `compute_urbanicity_score` from `score.py`: resolve base weights
(defaults `0.50/0.30/0.20`), compute the three robust z-score columns,
decide signal usability, renormalize `w_int`/`w_road` by their sum and
force the stored signal z-column to `NaN` when signals are dropped, and
record the effective weights and the usability flag as metadata. -/
def compute_urbanicity_score (sqrt : ℚ → ℚ) (rows : List MetricRow)
    (mode : SignalMode) (weights : Option (ℚ × ℚ × ℚ)) : ScoreResult :=
  let wb := weights.getD (W_INTERSECTION, W_ROAD, W_SIGNAL)
  let zInt := robust_zscore sqrt (rows.map (·.intersection_density))
  let zRoad := robust_zscore sqrt (rows.map (·.road_density))
  let zSigRaw := robust_zscore sqrt (rows.map (·.signal_density))
  let use := should_use_signals mode (rows.map (·.signal_density))
  let wInt := if use then wb.1 else wb.1 / (wb.1 + wb.2.1)
  let wRoad := if use then wb.2.1 else wb.2.1 / (wb.1 + wb.2.1)
  let wSig := if use then wb.2.2 else 0
  let zSig : List (Option ℚ) := if use then zSigRaw.map some else zSigRaw.map fun _ => none
  { rows := mkScoreRows wInt wRoad wSig zInt zRoad zSig
    w_int_eff := wInt
    w_road_eff := wRoad
    w_sig_eff := wSig
    signals_used := use }

/-- Embeds `pandas.Series.quantile` with the default linear interpolation:
on the sorted values `s` of length `n`, position `h = (n-1)·q`, lower index
`i = ⌊h⌋`, value `s[i] + (h-i)·(s[i+1]-s[i])` (the fractional part is `0`
when `i+1` runs past the end, so the out-of-range read is immaterial; the
default of the second read is chosen to also mirror the index clip). -/
def quantile (xs : List ℚ) (q : ℚ) : ℚ :=
  if xs.length = 0 then 0
  else
    let s := sortQ xs
    let h : ℚ := ((xs.length : ℚ) - 1) * q
    let i : ℕ := (⌊h⌋).toNat
    s.getD i 0 + (h - (i : ℚ)) * (s.getD (i + 1) (s.getD i 0) - s.getD i 0)

/-- Embeds the inner `_band` closure of `assign_urbanicity_band`:

    if score >= t_high: return 3
    if score <= t_low:  return 1
    return 2
-/
def bandOf (t_high t_low : ℚ) (score : ℚ) : ℤ :=
  if t_high ≤ score then 3
  else if score ≤ t_low then 1
  else 2

/-- Result of `assign_urbanicity_band`: the band column plus the two
threshold columns `t_low_q30` / `t_high_q70`. -/
structure BandResult where
  bands : List ℤ
  t_low : ℚ
  t_high : ℚ
deriving DecidableEq, Repr

/-- Embeds `assign_urbanicity_band` from `score.py`: thresholds are the
`q_low` / `q_high` quantiles of the composite-score column, and every score
is mapped through `bandOf`. -/
def assign_urbanicity_band (scores : List ℚ) (q_high q_low : ℚ) : BandResult :=
  { bands := scores.map (bandOf (quantile scores q_high) (quantile scores q_low))
    t_low := quantile scores q_low
    t_high := quantile scores q_high }

/-- Steps of `run_city` (`pipeline.py`), in program order.  Each constructor
names one call made by `run_city`; `validateOutput` stands for the call to
`validate_city_output` that the spec's control flow places between the Band
Assigner and the Output Writers. -/
inductive PipelineStep
  | loadGraph
  | loadNodesEdges
  | computeIntersections
  | loadSignals
  | buildGrid
  | computeIntersectionDensity
  | computeRoadDensity
  | computeSignalDensity
  | assembleMetrics
  | computeScore
  | assignBand
  | validateOutput
  | writeParquet
  | writeSummary
  | writeGeojson
deriving DecidableEq, Repr

/-- Embeds the call sequence of `run_city` in `pipeline.py` (Steps 1-8).
`validate_city_output` is called nowhere in `run_city` (nor anywhere else in
the package), so `validateOutput` does not appear. -/
def run_city_steps (write_geojson : Bool) : List PipelineStep :=
  [.loadGraph, .loadNodesEdges, .computeIntersections, .loadSignals, .buildGrid,
   .computeIntersectionDensity, .computeRoadDensity, .computeSignalDensity,
   .assembleMetrics, .computeScore, .assignBand, .writeParquet, .writeSummary] ++
    (if write_geojson then [.writeGeojson] else [])

/-- Axis-aligned bounding box, as returned by shapely `bounds` /
geopandas `total_bounds`. -/
structure Box where
  minx : ℚ
  miny : ℚ
  maxx : ℚ
  maxy : ℚ
deriving DecidableEq, Repr

/-- Hex cell as `compute_road_density` sees it: its polygon is reached only
through the clip oracle, so within this embedding a cell carries its
bounding box (used by the spatial index) and its area. -/
structure HexCell where
  bbox : Box
  hex_area_km2 : ℚ
deriving DecidableEq, Repr

/-- Road edge as `compute_road_density` sees it; its geometry is reached
only through the spatial index (bounding box) and the clip oracle. -/
structure RoadEdge where
  bbox : Box
deriving DecidableEq, Repr

/-- Bounding-box overlap test of the `edges.sindex.intersection(bounds)`
candidate query (inclusive on touching boxes). -/
def boxIntersects (a b : Box) : Bool :=
  decide (a.minx ≤ b.maxx) && decide (b.minx ≤ a.maxx) &&
    decide (a.miny ≤ b.maxy) && decide (b.miny ≤ a.maxy)

/-- Merge two bounding boxes (componentwise min/max). -/
def mergeBox (a b : Box) : Box :=
  ⟨minQ a.minx b.minx, minQ a.miny b.miny, maxQ a.maxx b.maxx, maxQ a.maxy b.maxy⟩

/-- Embeds `GeoDataFrame.total_bounds` of a batch of geometries.  Batches
are never empty in `compute_road_density` (an empty city yields no batch),
so the empty case is arbitrary. -/
def totalBounds : List Box → Box
  | [] => ⟨0, 0, 0, 0⟩
  | b :: bs => bs.foldl mergeBox b

/-- Outcome of clipping one edge to one hex polygon, the per-pair view of
`gpd.overlay(candidate_edges, hex_batch, how="intersection")`:
`errored` models the pair whose malformed geometry makes the overlay raise,
`line len` a (Multi)LineString intersection of length `len` metres,
`nonLine` a degenerate (point) intersection that the
`geom_type.isin(["LineString","MultiLineString"])` filter drops, and
`empty` no intersection (no overlay row). -/
inductive ClipResult
  | errored
  | line (length_m : ℚ)
  | nonLine
  | empty
deriving DecidableEq, Repr

/-- Metres of clipped length a `ClipResult` contributes to the per-hex sum. -/
def clipLen : ClipResult → ℚ
  | .line len => len
  | _ => 0

/-- Consecutive batches of `chunk_size` cells: embeds the
`hexes_reset.iloc[start:end]` slicing loop of `compute_road_density`. -/
def chunkList {α : Type} (k : ℕ) (l : List α) : List (List α) :=
  match l with
  | [] => []
  | x :: xs => (x :: xs.take (k - 1)) :: chunkList k (xs.drop (k - 1))
termination_by l.length
decreasing_by simp [List.length_drop]; omega

/-- Candidate edges of one batch: those whose bounding box meets the
batch's `total_bounds` (the `edges_sindex.intersection` query). -/
def batchCandidates (edges : List RoadEdge) (batch : List HexCell) : List RoadEdge :=
  edges.filter fun e => boxIntersects e.bbox (totalBounds (batch.map (·.bbox)))

/-- Per-cell clipped road length (km) contributed by one batch:  no
candidates means no contribution; a raising overlay (some candidate/cell
pair `errored`) skips the whole batch (`except ... continue` in the code);
otherwise each cell receives the summed clipped lengths of all candidate
edges, converted from metres to km. -/
def batchKm (clip : RoadEdge → HexCell → ClipResult) (edges : List RoadEdge)
    (batch : List HexCell) : List ℚ :=
  if (batchCandidates edges batch).isEmpty then batch.map fun _ => 0
  else if (batchCandidates edges batch).any fun e =>
      batch.any fun c => decide (clip e c = .errored) then
    batch.map fun _ => 0
  else batch.map fun c =>
    (((batchCandidates edges batch).map fun e => clipLen (clip e c)).sum) / 1000

/-- Per-cell road length in km (the `road_length_km` accumulator of
`compute_road_density` mapped back onto the cell order): empty edge input
short-circuits to all zeros, otherwise the batches are processed in order
and concatenated (each cell lies in exactly one batch). -/
def road_length_km (clip : RoadEdge → HexCell → ClipResult) (cells : List HexCell)
    (edges : List RoadEdge) (chunk_size : ℕ) : List ℚ :=
  if edges.isEmpty then cells.map fun _ => 0
  else (chunkList chunk_size cells).flatMap (batchKm clip edges)

/-- Embeds `compute_road_density` from `metrics.py`: clipped road length per
cell (km) divided by the cell's area (km²). -/
def compute_road_density (clip : RoadEdge → HexCell → ClipResult)
    (cells : List HexCell) (edges : List RoadEdge) (chunk_size : ℕ) : List ℚ :=
  List.zipWith (fun (c : HexCell) (km : ℚ) => km / c.hex_area_km2) cells
    (road_length_km clip cells edges chunk_size)

/-- The batching-free meaning of the apportionment: a cell's road length is
the sum of the clipped lengths of all edges against that cell (in km). -/
def idealRoadKm (clip : RoadEdge → HexCell → ClipResult) (edges : List RoadEdge)
    (c : HexCell) : ℚ :=
  ((edges.map fun e => clipLen (clip e c)).sum) / 1000

/-- Where a point sits relative to one cell polygon.  Shapely's `within`
predicate (the one `gpd.sjoin(..., predicate="within")` uses) holds for a
point exactly when the point lies in the polygon's interior — a point on
the boundary is `touches`, not `within`. -/
inductive PtLoc
  | interior
  | boundary
  | exterior
deriving DecidableEq, Repr

/-- Point feature (intersection node or signal); `is_point_geom` records
whether its geometry type is `Point` (`compute_signal_density` filters on
this). -/
structure PointFeature where
  is_point_geom : Bool
deriving DecidableEq, Repr

/-- Shapely `within` for a point against a polygon, as used by the
`predicate="within"` spatial joins: true exactly on the interior. -/
def within (locate : PointFeature → HexCell → PtLoc) (p : PointFeature)
    (c : HexCell) : Bool :=
  decide (locate p c = .interior)

/-- Embeds `compute_intersection_density` from `metrics.py`: empty feature
input short-circuits to all zeros; otherwise each cell's density is the
number of points `within` it divided by its area (the sjoin / groupby /
left-join / fillna pipeline). -/
def compute_intersection_density (locate : PointFeature → HexCell → PtLoc)
    (cells : List HexCell) (pts : List PointFeature) : List ℚ :=
  if pts.isEmpty then cells.map fun _ => 0
  else cells.map fun c =>
    ((pts.countP fun p => within locate p c : ℕ) : ℚ) / c.hex_area_km2

/-- Embeds `compute_signal_density` from `metrics.py`: like intersection
density but with a preliminary filter to `Point` geometries (and a second
all-zero short-circuit when that filter leaves nothing). -/
def compute_signal_density (locate : PointFeature → HexCell → PtLoc)
    (cells : List HexCell) (pts : List PointFeature) : List ℚ :=
  if pts.isEmpty then cells.map fun _ => 0
  else if (pts.filter (·.is_point_geom)).isEmpty then cells.map fun _ => 0
  else cells.map fun c =>
    (((pts.filter (·.is_point_geom)).countP fun p => within locate p c : ℕ) : ℚ) /
      c.hex_area_km2

/-- Row of the completed per-city table as `validate_city_output` reads it:
the three densities, the band, the composite score (`none` = non-finite)
and the stored signal z-score (`none` = NaN). -/
structure VRow where
  intersection_density : ℚ
  road_density : ℚ
  signal_density : ℚ
  band : ℤ
  score : Option ℚ
  z_signal : Option ℚ
deriving DecidableEq, Repr

/-- Completed city table plus the `attrs` metadata `validate_city_output`
reads (`gdf.attrs.get` returns `None` when absent, hence the `Option`s). -/
structure VTable where
  rows : List VRow
  signals_used : Option Bool
  w_sig_eff : Option ℚ
deriving DecidableEq, Repr

/-- The three density columns checked by E1.2, in the order the code
iterates them. -/
inductive DensityCol
  | intersection
  | road
  | signal
deriving DecidableEq, Repr

/-- Value of one density column in one row. -/
def densityValue (col : DensityCol) (r : VRow) : ℚ :=
  match col with
  | .intersection => r.intersection_density
  | .road => r.road_density
  | .signal => r.signal_density

/-- One acceptance-check failure of `validate_city_output` (the code builds
a message string per failure; the constructor identifies which check and,
for E1.2, which column). -/
inductive VFailure
  | e11
  | e12 (col : DensityCol)
  | e13
  | e14
  | e15nonNaN
  | e15weight
  | e15allNaN
  | e16
  | e17
deriving DecidableEq, Repr

/-- The failure list `validate_city_output` accumulates, check by check in
program order (E1.1 … E1.7).  Percentage comparisons are stated integrally:
`finite_pct < 0.99` is `100·finite < 99·n` (false on an empty table, where
numpy's mean is NaN and `NaN < 0.99` is false), `pct_pos < 0.30` is
`10·positive < 3·n` (guarded by `len(gdf) > 0` as in the code). -/
def vFailures (t : VTable) : List VFailure :=
  (if t.rows.length = 0 then [.e11] else []) ++
  ([DensityCol.intersection, .road, .signal].filterMap fun col =>
    if 0 < t.rows.countP fun r => decide (densityValue col r < 0) then some (.e12 col)
    else none) ++
  (if t.rows.any fun r => !decide (r.band = 1 ∨ r.band = 2 ∨ r.band = 3) then [.e13]
   else []) ++
  (if t.rows.length ≠ 0 ∧
      100 * (t.rows.countP fun r => r.score.isSome) < 99 * t.rows.length then [.e14]
   else []) ++
  (match t.signals_used with
   | some false =>
      (if t.rows.any fun r => r.z_signal.isSome then [.e15nonNaN] else []) ++
      (match t.w_sig_eff with
       | some w => if MAD_EPS < absQ w then [.e15weight] else []
       | none => [])
   | some true => if t.rows.all fun r => r.z_signal.isNone then [.e15allNaN] else []
   | none => []) ++
  (if 0 < t.rows.length ∧
      10 * (t.rows.countP fun r => decide (0 < r.intersection_density)) <
        3 * t.rows.length then [.e16]
   else []) ++
  (if 0 < t.rows.length ∧
      10 * (t.rows.countP fun r => decide (0 < r.road_density)) <
        3 * t.rows.length then [.e17]
   else [])

/-- Embeds `validate_city_output` from `validate.py`: all checks run, then a
single aggregate error carrying every failure is raised when the list is
non-empty, otherwise the function returns normally. -/
def validate_city_output (t : VTable) : Except (List VFailure) Unit :=
  if vFailures t = [] then .ok () else .error (vFailures t)

/-- Semantic condition under which each acceptance check fails, spelled out
from the spec's description of the checks (used to characterise
`validate_city_output` independently of how it accumulates failures). -/
def checkFails (t : VTable) : VFailure → Prop
  | .e11 => t.rows.length = 0
  | .e12 col => ∃ r ∈ t.rows, densityValue col r < 0
  | .e13 => ∃ r ∈ t.rows, ¬(r.band = 1 ∨ r.band = 2 ∨ r.band = 3)
  | .e14 => t.rows.length ≠ 0 ∧
      100 * (t.rows.countP fun r => r.score.isSome) < 99 * t.rows.length
  | .e15nonNaN => t.signals_used = some false ∧ ∃ r ∈ t.rows, r.z_signal ≠ none
  | .e15weight => t.signals_used = some false ∧
      ∃ w, t.w_sig_eff = some w ∧ MAD_EPS < absQ w
  | .e15allNaN => t.signals_used = some true ∧ ∀ r ∈ t.rows, r.z_signal = none
  | .e16 => 0 < t.rows.length ∧
      10 * (t.rows.countP fun r => decide (0 < r.intersection_density)) <
        3 * t.rows.length
  | .e17 => 0 < t.rows.length ∧
      10 * (t.rows.countP fun r => decide (0 < r.road_density)) <
        3 * t.rows.length

/-- Two adjacent unit-height cells with areas 1 and 2 km². -/
def cellA : HexCell := ⟨⟨0, 0, 1, 1⟩, 1⟩

/-- Second concrete cell (area 2 km²). -/
def cellB : HexCell := ⟨⟨1, 0, 2, 1⟩, 2⟩

/-- A road edge spanning both concrete cells. -/
def edgeAB : RoadEdge := ⟨⟨0, 0, 2, 1⟩⟩

/-- Clip oracle with one malformed pair: clipping against `cellA` (area ≤ 1)
raises, clipping against any other cell yields a 1000 m segment. -/
def clipErrA : RoadEdge → HexCell → ClipResult :=
  fun _ c => if c.hex_area_km2 ≤ 1 then .errored else .line 1000

/-- One wide cell used for the same-batch counterexample. -/
def cellWide : HexCell := ⟨⟨0, 0, 2, 1⟩, 1⟩

/-- A malformed edge (bounding box reaching x = 1). -/
def edgeBad : RoadEdge := ⟨⟨0, 0, 1, 1⟩⟩

/-- A well-formed edge (bounding box reaching x = 2). -/
def edgeGood : RoadEdge := ⟨⟨0, 0, 2, 1⟩⟩

/-- Clip oracle where only the narrow edge's pair raises; the wide edge
clips to a 500 m segment in any cell. -/
def clipBadGood : RoadEdge → HexCell → ClipResult :=
  fun e _ => if e.bbox.maxx ≤ 1 then .errored else .line 500

/-- Conservation example: an edge split 300 m / 700 m between the two
concrete cells (and clipping to nothing outside their bounding boxes). -/
def clipSplit : RoadEdge → HexCell → ClipResult :=
  fun e c =>
    if boxIntersects e.bbox c.bbox then
      if c.hex_area_km2 ≤ 1 then .line 300 else .line 700
    else .empty

/-- Locate oracle placing every point on every cell's boundary. -/
def locateBoundary : PointFeature → HexCell → PtLoc := fun _ _ => .boundary

/-- Locate oracle placing every point in every cell's interior. -/
def locateInterior : PointFeature → HexCell → PtLoc := fun _ _ => .interior

/-- A point feature whose geometry type is `Point`. -/
def aPoint : PointFeature := ⟨true⟩

/-- Clip oracle with no intersections at all. -/
def clipNone : RoadEdge → HexCell → ClipResult := fun _ _ => .empty

/-- A clean single-row table: used to exhibit that the validator accepts a
table satisfying every check. -/
def exampleCleanTable : VTable :=
  { rows := [{ intersection_density := 1, road_density := 1, signal_density := 0,
               band := 2, score := some 1, z_signal := some 0 }]
    signals_used := some true
    w_sig_eff := some 0 }

/-! ### Basic lemmas -/

theorem maxQ_eq_max (a b : ℚ) : maxQ a b = max a b := (max_def a b).symm

theorem minQ_eq_min (a b : ℚ) : minQ a b = min a b := (min_def a b).symm

theorem absQ_eq_abs (a : ℚ) : absQ a = |a| := by
  rw [absQ]
  rcases le_or_lt a 0 with h | h
  · rw [if_pos h, abs_of_nonpos h]
  · rw [if_neg (not_le_of_lt h), abs_of_pos h]

theorem MAD_EPS_pos : 0 < MAD_EPS := by norm_num [MAD_EPS]

theorem clip10_bounds (x : ℚ) : -10 ≤ clip10 x ∧ clip10 x ≤ 10 := by
  rw [clip10, maxQ_eq_max, minQ_eq_min]
  constructor
  · exact le_max_left _ _
  · exact max_le (by norm_num) (min_le_left _ _)

theorem getD_replicate {n i : ℕ} (c d : ℚ) (h : i < n) :
    (List.replicate n c).getD i d = c := by
  induction n generalizing i with
  | zero => omega
  | succ k ih =>
    cases i with
    | zero => rfl
    | succ j => simpa [List.replicate_succ] using ih (by omega)

theorem insertSorted_replicate (c : ℚ) (k : ℕ) :
    insertSorted c (List.replicate k c) = List.replicate (k + 1) c := by
  cases k with
  | zero => rfl
  | succ j => simp [List.replicate_succ, insertSorted]

theorem sortQ_replicate (n : ℕ) (c : ℚ) :
    sortQ (List.replicate n c) = List.replicate n c := by
  induction n with
  | zero => rfl
  | succ k ih =>
    rw [List.replicate_succ, sortQ, List.foldr_cons]
    rw [show List.foldr insertSorted [] (List.replicate k c) = sortQ (List.replicate k c) from rfl]
    rw [ih, insertSorted_replicate, List.replicate_succ]

theorem median_replicate (n : ℕ) (hn : n ≠ 0) (c : ℚ) :
    median (List.replicate n c) = c := by
  rw [median]
  simp only [List.length_replicate, sortQ_replicate]
  rw [if_neg hn]
  rcases Nat.even_or_odd n with he | ho
  · have h2 : n % 2 = 0 := Nat.even_iff.mp he
    rw [if_neg (by omega)]
    rw [getD_replicate c 0 (by omega), getD_replicate c 0 (by omega)]
    ring
  · have h2 : n % 2 = 1 := Nat.odd_iff.mp ho
    rw [if_pos h2, getD_replicate c 0 (by omega)]

theorem meanQ_replicate (n : ℕ) (hn : n ≠ 0) (c : ℚ) :
    meanQ (List.replicate n c) = c := by
  rw [meanQ, List.sum_replicate, List.length_replicate, nsmul_eq_mul]
  field_simp

theorem popVar_replicate (n : ℕ) (c : ℚ) : popVar (List.replicate n c) = 0 := by
  cases n with
  | zero => simp [popVar]
  | succ k =>
    rw [popVar, meanQ_replicate _ (Nat.succ_ne_zero k)]
    simp [List.map_replicate, List.sum_replicate]

/-! ### C1 — robust z-score -/

/-- Claim C1.  `robust_zscore` computes the median `m` and the MAD; the scale
is the MAD when `MAD_EPS ≤ mad` and the population standard deviation
otherwise (`specScale`); when the chosen scale is below `MAD_EPS` every
output is `0`, otherwise each output is `(x - m) / (scale + MAD_EPS)`
clamped to `[-10, 10]`; a constant column yields all zeros; and every
returned value lies within `[-10, 10]`. -/
theorem c1_robust_zscore_spec (sqrt : ℚ → ℚ) (hs0 : sqrt 0 = 0) (xs : List ℚ) :
    (specScale sqrt xs < MAD_EPS → robust_zscore sqrt xs = xs.map fun _ => 0) ∧
    (MAD_EPS ≤ specScale sqrt xs →
      robust_zscore sqrt xs =
        xs.map fun x => clip10 ((x - median xs) / (specScale sqrt xs + MAD_EPS))) ∧
    ((∃ c, xs = List.replicate xs.length c) → robust_zscore sqrt xs = xs.map fun _ => 0) ∧
    (∀ z ∈ robust_zscore sqrt xs, -10 ≤ z ∧ z ≤ 10) := by
  have hbr : ∀ z ∈ robust_zscore sqrt xs, -10 ≤ z ∧ z ≤ 10 := by
    intro z hz
    rw [robust_zscore] at hz
    split at hz
    · split at hz
      · rcases List.mem_map.mp hz with ⟨x, _, rfl⟩
        norm_num
      · rcases List.mem_map.mp hz with ⟨x, _, rfl⟩
        exact clip10_bounds _
    · rcases List.mem_map.mp hz with ⟨x, _, rfl⟩
      exact clip10_bounds _
  refine ⟨?_, ?_, ?_, hbr⟩
  · intro hlt
    rw [specScale] at hlt
    rw [robust_zscore]
    by_cases hmad : MAD_EPS ≤ median (xs.map fun x => absQ (x - median xs))
    · rw [if_pos hmad] at hlt
      exact absurd hlt (not_lt_of_le hmad)
    · rw [if_neg hmad] at hlt
      rw [if_pos (lt_of_not_le hmad), if_pos hlt]
  · intro hge
    rw [specScale] at hge ⊢
    rw [robust_zscore]
    by_cases hmad : MAD_EPS ≤ median (xs.map fun x => absQ (x - median xs))
    · rw [if_pos hmad]
      rw [if_neg (not_lt_of_le hmad)]
    · rw [if_neg hmad] at hge ⊢
      rw [if_pos (lt_of_not_le hmad), if_neg (not_lt_of_le hge)]
  · rintro ⟨c, hc⟩
    rcases Nat.eq_zero_or_pos xs.length with h0 | hpos
    · rw [List.length_eq_zero.mp h0]
      norm_num [robust_zscore, median, popVar, meanQ, hs0, MAD_EPS]
    · rw [hc]
      rw [robust_zscore]
      have hm : median (List.replicate xs.length c) = c :=
        median_replicate _ (by omega) c
      have habs : ((List.replicate xs.length c).map fun x =>
          absQ (x - median (List.replicate xs.length c))) =
          List.replicate xs.length 0 := by
        rw [hm, List.map_replicate]
        simp [absQ]
      rw [habs, median_replicate _ (by omega) 0, popVar_replicate, hs0]
      rw [if_pos MAD_EPS_pos, if_pos MAD_EPS_pos]

/-- Witness for C1: a constant column of three fives maps to all zeros. -/
theorem c1_witness : robust_zscore id [5, 5, 5] = [0, 0, 0] := by
  have h := (c1_robust_zscore_spec id rfl [5, 5, 5]).2.2.1 ⟨5, rfl⟩
  simpa using h

/-! ### C5 — validator position in the pipeline -/

/-- Claim C5 (code bug evidence).  The call sequence of `run_city` contains
the Score Engine, the Band Assigner and the Output Writers in order, but no
call to the Validator at all — with or without the GeoJSON writer — so no
acceptance check runs before outputs are written. -/
theorem c5_run_city_never_validates :
    PipelineStep.validateOutput ∉ run_city_steps true ∧
    PipelineStep.validateOutput ∉ run_city_steps false ∧
    PipelineStep.writeParquet ∈ run_city_steps true ∧
    PipelineStep.writeSummary ∈ run_city_steps true ∧
    PipelineStep.writeGeojson ∈ run_city_steps true ∧
    PipelineStep.assignBand ∈ run_city_steps true := by
  decide

/-! ### C6 — band discretization -/

/-- Claim C6 counterexample.  For the (reachable) constant score column
`[0,0,0,0]` both quantile thresholds equal `0`; every score is `≤ T_low`,
yet every assigned band is `3`, not `1` — the clause "band is 1 if
score <= T_low" fails when a score also satisfies `score >= T_high`. -/
theorem c6_counterexample :
    (assign_urbanicity_band [0, 0, 0, 0] QUANTILE_HIGH QUANTILE_LOW).t_low = 0 ∧
    (assign_urbanicity_band [0, 0, 0, 0] QUANTILE_HIGH QUANTILE_LOW).t_high = 0 ∧
    (assign_urbanicity_band [0, 0, 0, 0] QUANTILE_HIGH QUANTILE_LOW).bands =
      [3, 3, 3, 3] := by
  refine ⟨?_, ?_, ?_⟩ <;>
    norm_num [assign_urbanicity_band, quantile, sortQ, insertSorted, bandOf,
      QUANTILE_HIGH, QUANTILE_LOW, List.getD_cons_succ, List.getD_cons_zero,
      show (2 : ℤ).toNat = 2 from rfl, show (0 : ℤ).toNat = 0 from rfl,
      List.getElem_cons_succ, List.getElem_cons_zero]

/-- Claim C6, amended.  The band column is the scores mapped through
`bandOf t_high t_low` with the thresholds the `q_high` / `q_low` quantiles;
`bandOf` always yields a value in `{1,2,3}`, assigns `3` whenever
`score ≥ t_high` (inclusive tie), assigns `1` whenever `score ≤ t_low`
provided `t_low < t_high` (the `≥ t_high` test has priority, which only
matters when the thresholds coincide), and `2` exactly on the open
interval. -/
theorem c6_band_assignment (scores : List ℚ) (q_high q_low : ℚ) :
    (assign_urbanicity_band scores q_high q_low).bands =
      scores.map (bandOf (quantile scores q_high) (quantile scores q_low)) ∧
    (assign_urbanicity_band scores q_high q_low).t_high = quantile scores q_high ∧
    (assign_urbanicity_band scores q_high q_low).t_low = quantile scores q_low ∧
    ∀ tH tL s : ℚ,
      (bandOf tH tL s = 1 ∨ bandOf tH tL s = 2 ∨ bandOf tH tL s = 3) ∧
      (tH ≤ s → bandOf tH tL s = 3) ∧
      (tL < tH → s ≤ tL → bandOf tH tL s = 1) ∧
      (tL < s → s < tH → bandOf tH tL s = 2) := by
  refine ⟨rfl, rfl, rfl, ?_⟩
  intro tH tL s
  unfold bandOf
  split_ifs with h1 h2
  · exact ⟨Or.inr (Or.inr rfl), fun _ => rfl,
      fun hlt hle => absurd (lt_of_lt_of_le hlt h1) (not_lt_of_le hle),
      fun _ hs => absurd hs (not_lt_of_le h1)⟩
  · exact ⟨Or.inl rfl, fun h => absurd h h1, fun _ _ => rfl,
      fun hlt _ => absurd hlt (not_lt_of_le h2)⟩
  · exact ⟨Or.inr (Or.inl rfl), fun h => absurd h h1,
      fun _ hle => absurd hle h2, fun _ _ => rfl⟩

/-- Witness for C6: with thresholds `t_high = 1 > t_low = 0`, a score of `5`
lands in band 3. -/
theorem c6_witness : bandOf 1 0 5 = 3 := by
  have h := ((c6_band_assignment [0] 1 0).2.2.2 1 0 5).2.1 (by norm_num)
  exact h

/-! ### C2 — signal drop: weights, NaN markers and metadata agree -/

theorem mkScoreRows_zsig_mem {w1 w2 w3 : ℚ} :
    ∀ (zi zr : List ℚ) (zs : List (Option ℚ)) (row : ScoreRow),
      row ∈ mkScoreRows w1 w2 w3 zi zr zs → row.z_signal ∈ zs := by
  intro zi
  induction zi with
  | nil => intro zr zs row h; simp [mkScoreRows] at h
  | cons a is ih =>
    intro zr zs row h
    cases zr with
    | nil => simp [mkScoreRows] at h
    | cons b rs =>
      cases zs with
      | nil => simp [mkScoreRows] at h
      | cons o ss =>
        rw [mkScoreRows] at h
        rcases List.mem_cons.mp h with rfl | h2
        · exact List.mem_cons_self _ _
        · exact List.mem_cons_of_mem _ (ih rs ss row h2)

/-- Claim C2.  Whenever signals are judged unusable (`signal_mode = off`, or
`auto` with fewer than 5% of cells having positive signal density),
`compute_urbanicity_score` reports effective signal weight exactly `0`,
effective intersection/road weights equal to the base weights divided by
their sum (summing to `1` exactly, hence within `1e-9`), stores the
undefined marker (`none`, never a number) in the signal z-score column of
every row, and records `signals_used = false` in the metadata. -/
theorem c2_signal_drop (sqrt : ℚ → ℚ) (rows : List MetricRow)
    (mode : SignalMode) (weights : Option (ℚ × ℚ × ℚ))
    (hdrop : mode = .off ∨ (mode = .auto ∧
      20 * ((rows.map (·.signal_density)).countP fun x => decide (0 < x)) < rows.length))
    (hpos : 0 < (weights.getD (W_INTERSECTION, W_ROAD, W_SIGNAL)).1 +
      (weights.getD (W_INTERSECTION, W_ROAD, W_SIGNAL)).2.1) :
    (compute_urbanicity_score sqrt rows mode weights).w_sig_eff = 0 ∧
    (compute_urbanicity_score sqrt rows mode weights).w_int_eff =
      (weights.getD (W_INTERSECTION, W_ROAD, W_SIGNAL)).1 /
        ((weights.getD (W_INTERSECTION, W_ROAD, W_SIGNAL)).1 +
          (weights.getD (W_INTERSECTION, W_ROAD, W_SIGNAL)).2.1) ∧
    (compute_urbanicity_score sqrt rows mode weights).w_road_eff =
      (weights.getD (W_INTERSECTION, W_ROAD, W_SIGNAL)).2.1 /
        ((weights.getD (W_INTERSECTION, W_ROAD, W_SIGNAL)).1 +
          (weights.getD (W_INTERSECTION, W_ROAD, W_SIGNAL)).2.1) ∧
    (compute_urbanicity_score sqrt rows mode weights).w_int_eff +
      (compute_urbanicity_score sqrt rows mode weights).w_road_eff = 1 ∧
    absQ ((compute_urbanicity_score sqrt rows mode weights).w_int_eff +
      (compute_urbanicity_score sqrt rows mode weights).w_road_eff - 1) ≤ 1 / 1000000000 ∧
    (compute_urbanicity_score sqrt rows mode weights).signals_used = false ∧
    ∀ row ∈ (compute_urbanicity_score sqrt rows mode weights).rows,
      row.z_signal = none := by
  have huse : should_use_signals mode (rows.map (·.signal_density)) = false := by
    rcases hdrop with rfl | ⟨rfl, hfrac⟩
    · rfl
    · rw [should_use_signals]
      have hnle : ¬ ((rows.map (·.signal_density)).length ≤
          20 * ((rows.map (·.signal_density)).countP fun x => decide (0 < x))) := by
        rw [List.length_map]
        omega
      rw [decide_eq_false hnle, Bool.and_false]
  have hsum : (compute_urbanicity_score sqrt rows mode weights).w_int_eff +
      (compute_urbanicity_score sqrt rows mode weights).w_road_eff = 1 := by
    simp only [compute_urbanicity_score, huse, Bool.false_eq_true, if_false]
    rw [div_add_div_same, div_self (ne_of_gt hpos)]
  refine ⟨?_, ?_, ?_, hsum, ?_, ?_, ?_⟩
  · simp only [compute_urbanicity_score, huse, Bool.false_eq_true, if_false]
  · simp only [compute_urbanicity_score, huse, Bool.false_eq_true, if_false]
  · simp only [compute_urbanicity_score, huse, Bool.false_eq_true, if_false]
  · rw [hsum]
    norm_num [absQ]
  · simp only [compute_urbanicity_score, huse]
  · intro row hrow
    simp only [compute_urbanicity_score, huse, Bool.false_eq_true, if_false] at hrow
    have hmem := mkScoreRows_zsig_mem _ _ _ row hrow
    rcases List.mem_map.mp hmem with ⟨_, _, hz⟩
    exact hz.symm

/-- Witness for C2: two rows, signal mode `off`, default weights. -/
theorem c2_witness :
    (compute_urbanicity_score id [⟨1, 2, 3⟩, ⟨4, 5, 6⟩] .off none).w_sig_eff = 0 ∧
    (compute_urbanicity_score id [⟨1, 2, 3⟩, ⟨4, 5, 6⟩] .off none).w_int_eff +
      (compute_urbanicity_score id [⟨1, 2, 3⟩, ⟨4, 5, 6⟩] .off none).w_road_eff = 1 ∧
    (compute_urbanicity_score id [⟨1, 2, 3⟩, ⟨4, 5, 6⟩] .off none).signals_used = false := by
  have h := c2_signal_drop id [⟨1, 2, 3⟩, ⟨4, 5, 6⟩] .off none (Or.inl rfl)
    (by norm_num [Option.getD, W_INTERSECTION, W_ROAD])
  exact ⟨h.1, h.2.2.2.1, h.2.2.2.2.2.1⟩

/-! ### Road-density lemmas -/

theorem chunkList_join {α : Type} (k : ℕ) : ∀ l : List α, (chunkList k l).flatten = l
  | [] => by rw [chunkList]; rfl
  | x :: xs => by
      rw [chunkList, List.flatten_cons, chunkList_join k (xs.drop (k - 1)),
        List.cons_append, List.take_append_drop]
termination_by l => l.length
decreasing_by simp [List.length_drop]; omega

theorem chunkList_mem {α : Type} {k : ℕ} {l : List α} {b : List α} {c : α}
    (hb : b ∈ chunkList k l) (hc : c ∈ b) : c ∈ l := by
  rw [← chunkList_join k l]
  exact List.mem_flatten.mpr ⟨b, hb, hc⟩

theorem mergeBox_le_left (a b : Box) :
    (mergeBox a b).minx ≤ a.minx ∧ (mergeBox a b).miny ≤ a.miny ∧
    a.maxx ≤ (mergeBox a b).maxx ∧ a.maxy ≤ (mergeBox a b).maxy := by
  refine ⟨?_, ?_, ?_, ?_⟩ <;>
    simp only [mergeBox, minQ_eq_min, maxQ_eq_max] <;>
    first
      | exact min_le_left _ _
      | exact le_max_left _ _

theorem mergeBox_le_right (a b : Box) :
    (mergeBox a b).minx ≤ b.minx ∧ (mergeBox a b).miny ≤ b.miny ∧
    b.maxx ≤ (mergeBox a b).maxx ∧ b.maxy ≤ (mergeBox a b).maxy := by
  refine ⟨?_, ?_, ?_, ?_⟩ <;>
    simp only [mergeBox, minQ_eq_min, maxQ_eq_max] <;>
    first
      | exact min_le_right _ _
      | exact le_max_right _ _

theorem foldl_mergeBox_init (bs : List Box) (a : Box) :
    (bs.foldl mergeBox a).minx ≤ a.minx ∧ (bs.foldl mergeBox a).miny ≤ a.miny ∧
    a.maxx ≤ (bs.foldl mergeBox a).maxx ∧ a.maxy ≤ (bs.foldl mergeBox a).maxy := by
  induction bs generalizing a with
  | nil => exact ⟨le_refl _, le_refl _, le_refl _, le_refl _⟩
  | cons b bs ih =>
    have h := ih (mergeBox a b)
    have hm := mergeBox_le_left a b
    rw [List.foldl_cons]
    exact ⟨le_trans h.1 hm.1, le_trans h.2.1 hm.2.1,
      le_trans hm.2.2.1 h.2.2.1, le_trans hm.2.2.2 h.2.2.2⟩

theorem foldl_mergeBox_mem (bs : List Box) (a x : Box) (hx : x ∈ bs) :
    (bs.foldl mergeBox a).minx ≤ x.minx ∧ (bs.foldl mergeBox a).miny ≤ x.miny ∧
    x.maxx ≤ (bs.foldl mergeBox a).maxx ∧ x.maxy ≤ (bs.foldl mergeBox a).maxy := by
  induction bs generalizing a with
  | nil => cases hx
  | cons b bs ih =>
    rw [List.foldl_cons]
    rcases List.mem_cons.mp hx with rfl | hx2
    · have h := foldl_mergeBox_init bs (mergeBox a x)
      have hm := mergeBox_le_right a x
      exact ⟨le_trans h.1 hm.1, le_trans h.2.1 hm.2.1,
        le_trans hm.2.2.1 h.2.2.1, le_trans hm.2.2.2 h.2.2.2⟩
    · exact ih (mergeBox a b) hx2

theorem totalBounds_mem (bs : List Box) (x : Box) (hx : x ∈ bs) :
    (totalBounds bs).minx ≤ x.minx ∧ (totalBounds bs).miny ≤ x.miny ∧
    x.maxx ≤ (totalBounds bs).maxx ∧ x.maxy ≤ (totalBounds bs).maxy := by
  cases bs with
  | nil => cases hx
  | cons b bs =>
    rw [totalBounds]
    rcases List.mem_cons.mp hx with rfl | hx2
    · exact foldl_mergeBox_init bs x
    · exact foldl_mergeBox_mem bs b x hx2

theorem boxIntersects_mono {e inner outer : Box}
    (hm : outer.minx ≤ inner.minx ∧ outer.miny ≤ inner.miny ∧
      inner.maxx ≤ outer.maxx ∧ inner.maxy ≤ outer.maxy)
    (h : boxIntersects e inner = true) : boxIntersects e outer = true := by
  simp only [boxIntersects, Bool.and_eq_true, decide_eq_true_eq] at h ⊢
  exact ⟨⟨⟨le_trans h.1.1.1 hm.2.2.1, le_trans hm.1 h.1.1.2⟩,
    le_trans h.1.2 hm.2.2.2⟩, le_trans hm.2.1 h.2⟩

theorem candidate_drop {e : Box} {batch : List HexCell} {c : HexCell} (hc : c ∈ batch)
    (hf : boxIntersects e (totalBounds (batch.map (·.bbox))) = false) :
    boxIntersects e c.bbox = false := by
  by_contra h
  have ht : boxIntersects e c.bbox = true := by
    revert h
    cases boxIntersects e c.bbox <;> simp
  have hm := totalBounds_mem (batch.map (·.bbox)) c.bbox (List.mem_map_of_mem _ hc)
  rw [boxIntersects_mono hm ht] at hf
  cases hf

theorem sum_map_filter_eq {α : Type} (p : α → Bool) (f : α → ℚ) (l : List α)
    (h0 : ∀ e ∈ l, p e = false → f e = 0) :
    ((l.filter p).map f).sum = (l.map f).sum := by
  induction l with
  | nil => rfl
  | cons e es ih =>
    have htail := ih fun x hx hpx => h0 x (List.mem_cons_of_mem _ hx) hpx
    by_cases hp : p e = true
    · rw [List.filter_cons_of_pos hp, List.map_cons, List.sum_cons,
        List.map_cons, List.sum_cons, htail]
    · have hpf : p e = false := by
        revert hp
        cases p e <;> simp
      rw [List.filter_cons_of_neg (by simp [hpf]), List.map_cons, List.sum_cons,
        h0 e (List.mem_cons_self _ _) hpf, zero_add, htail]

theorem sum_map_div (l : List ℚ) (d : ℚ) : (l.map fun x => x / d).sum = l.sum / d := by
  induction l with
  | nil => simp
  | cons a as ih => rw [List.map_cons, List.sum_cons, List.sum_cons, ih, add_div]

theorem batchKm_eq_ideal (clip : RoadEdge → HexCell → ClipResult)
    (edges : List RoadEdge) (batch : List HexCell)
    (hnoerr : ∀ e ∈ edges, ∀ c ∈ batch, clip e c ≠ .errored)
    (hbb : ∀ e ∈ edges, ∀ c : HexCell,
      boxIntersects e.bbox c.bbox = false → clipLen (clip e c) = 0) :
    batchKm clip edges batch = batch.map (idealRoadKm clip edges) := by
  have hdrop : ∀ c ∈ batch,
      (((batchCandidates edges batch).map fun e => clipLen (clip e c)).sum)
        = ((edges.map fun e => clipLen (clip e c)).sum) := by
    intro c hc
    apply sum_map_filter_eq
    intro e he hpe
    exact hbb e he c (candidate_drop hc hpe)
  rw [batchKm]
  by_cases h1 : (batchCandidates edges batch).isEmpty = true
  · rw [if_pos h1]
    apply List.map_congr_left
    intro c hc
    have hcand : batchCandidates edges batch = [] := List.isEmpty_iff.mp h1
    rw [idealRoadKm, ← hdrop c hc, hcand]
    simp
  · rw [if_neg h1]
    have h2 : ((batchCandidates edges batch).any fun e =>
        batch.any fun c => decide (clip e c = .errored)) = false := by
      by_contra h2t
      have h2t2 : ((batchCandidates edges batch).any fun e =>
          batch.any fun c => decide (clip e c = .errored)) = true := by
        revert h2t
        cases (batchCandidates edges batch).any fun e =>
          batch.any fun c => decide (clip e c = .errored) <;> simp
      rcases List.any_eq_true.mp h2t2 with ⟨e, he, hinner⟩
      rcases List.any_eq_true.mp hinner with ⟨c, hc, hdec⟩
      have hee : e ∈ edges := (List.mem_filter.mp he).1
      exact hnoerr e hee c hc (of_decide_eq_true hdec)
    rw [h2]
    simp only [Bool.false_eq_true, if_false]
    apply List.map_congr_left
    intro c hc
    rw [hdrop c hc, idealRoadKm]

theorem flatMap_congr_mem {α β : Type} {f g : α → List β} :
    ∀ L : List α, (∀ b ∈ L, f b = g b) → L.flatMap f = L.flatMap g := by
  intro L
  induction L with
  | nil => intro _; rfl
  | cons b bs ih =>
    intro h
    rw [List.flatMap_cons, List.flatMap_cons, h b (List.mem_cons_self _ _),
      ih fun x hx => h x (List.mem_cons_of_mem _ hx)]

theorem flatMap_map_eq_map_flatten {α β : Type} (L : List (List α)) (f : α → β) :
    (L.flatMap fun b => b.map f) = L.flatten.map f := by
  induction L with
  | nil => rfl
  | cons b bs ih => rw [List.flatMap_cons, List.flatten_cons, List.map_append, ih]

theorem road_length_km_eq_ideal (clip : RoadEdge → HexCell → ClipResult)
    (cells : List HexCell) (edges : List RoadEdge) (k : ℕ)
    (hnoerr : ∀ e ∈ edges, ∀ c ∈ cells, clip e c ≠ .errored)
    (hbb : ∀ e ∈ edges, ∀ c : HexCell,
      boxIntersects e.bbox c.bbox = false → clipLen (clip e c) = 0) :
    road_length_km clip cells edges k = cells.map (idealRoadKm clip edges) := by
  rw [road_length_km]
  by_cases hedges : edges.isEmpty = true
  · rw [if_pos hedges]
    have he : edges = [] := List.isEmpty_iff.mp hedges
    subst he
    apply List.map_congr_left
    intro c _
    simp [idealRoadKm]
  · rw [if_neg hedges]
    rw [flatMap_congr_mem (chunkList k cells) fun b hb =>
      batchKm_eq_ideal clip edges b
        (fun e he c hc => hnoerr e he c (chunkList_mem hb hc)) hbb]
    rw [flatMap_map_eq_map_flatten, chunkList_join]

theorem flatMap_length_eq {α β : Type} (f : List α → List β) :
    ∀ L : List (List α), (∀ b ∈ L, (f b).length = b.length) →
      (L.flatMap f).length = L.flatten.length := by
  intro L
  induction L with
  | nil => intro _; rfl
  | cons b bs ih =>
    intro h
    rw [List.flatMap_cons, List.flatten_cons, List.length_append, List.length_append,
      h b (List.mem_cons_self _ _), ih fun x hx => h x (List.mem_cons_of_mem _ hx)]

theorem batchKm_length (clip : RoadEdge → HexCell → ClipResult)
    (edges : List RoadEdge) (batch : List HexCell) :
    (batchKm clip edges batch).length = batch.length := by
  rw [batchKm]
  split_ifs <;> rw [List.length_map]

theorem road_length_km_length (clip : RoadEdge → HexCell → ClipResult)
    (cells : List HexCell) (edges : List RoadEdge) (k : ℕ) :
    (road_length_km clip cells edges k).length = cells.length := by
  rw [road_length_km]
  split_ifs with h
  · rw [List.length_map]
  · rw [flatMap_length_eq _ _ fun b _ => batchKm_length clip edges b, chunkList_join]

theorem compute_road_density_length (clip : RoadEdge → HexCell → ClipResult)
    (cells : List HexCell) (edges : List RoadEdge) (k : ℕ) :
    (compute_road_density clip cells edges k).length = cells.length := by
  rw [compute_road_density, List.length_zipWith, road_length_km_length,
    Nat.min_self]

/-! ### C3 — apportionment conservation -/

/-- Claim C3.  For a line feature whose clipped pieces across the cells sum
to its full length `L` (the geometric content of "wholly contained in the
union of the non-overlapping cells"), `compute_road_density` credits each
cell exactly the length of the geometric intersection of the feature with
that cell (in km — proportionality with factor 1), and the credited lengths
over all cells sum to exactly `L` km — in particular within the `1e-6` km
tolerance. -/
theorem c3_apportionment_conservation (clip : RoadEdge → HexCell → ClipResult)
    (cells : List HexCell) (e : RoadEdge) (k : ℕ) (L : ℚ)
    (hnoerr : ∀ c ∈ cells, clip e c ≠ .errored)
    (hbb : ∀ c : HexCell, boxIntersects e.bbox c.bbox = false → clipLen (clip e c) = 0)
    (hcontained : (cells.map fun c => clipLen (clip e c)).sum = L) :
    road_length_km clip cells [e] k = cells.map (fun c => clipLen (clip e c) / 1000) ∧
    (road_length_km clip cells [e] k).sum = L / 1000 ∧
    absQ ((road_length_km clip cells [e] k).sum - L / 1000) ≤ 1 / 1000000 := by
  have h1 : road_length_km clip cells [e] k = cells.map (idealRoadKm clip [e]) := by
    apply road_length_km_eq_ideal
    · intro e2 he2 c hc
      rw [List.mem_singleton.mp he2]
      exact hnoerr c hc
    · intro e2 he2 c hbf
      rw [List.mem_singleton.mp he2] at *
      exact hbb c hbf
  have h2 : cells.map (idealRoadKm clip [e]) =
      cells.map fun c => clipLen (clip e c) / 1000 := by
    apply List.map_congr_left
    intro c _
    simp [idealRoadKm]
  have h3 : road_length_km clip cells [e] k =
      cells.map fun c => clipLen (clip e c) / 1000 := h1.trans h2
  have h4 : (road_length_km clip cells [e] k).sum = L / 1000 := by
    rw [h3]
    rw [show (cells.map fun c => clipLen (clip e c) / 1000) =
      ((cells.map fun c => clipLen (clip e c)).map fun x => x / 1000) by
        rw [List.map_map]; rfl]
    rw [sum_map_div, hcontained]
  refine ⟨h3, h4, ?_⟩
  rw [h4]
  norm_num [absQ]

/-- Rewriting lemma: a successful line clip is never the raising outcome. -/
theorem clip_line_ne_errored (q : ℚ) :
    (ClipResult.line q = ClipResult.errored) = False :=
  eq_false fun h => ClipResult.noConfusion h

/-- Witness for C3: the 1000 m edge `edgeAB` split 300 m / 700 m over the
two concrete cells is conserved: the credited kilometres sum to 1. -/
theorem c3_witness : (road_length_km clipSplit [cellA, cellB] [edgeAB] 1).sum = 1 := by
  have h := (c3_apportionment_conservation clipSplit [cellA, cellB] edgeAB 1 1000
    (by intro c hc
        rcases List.mem_cons.mp hc with rfl | hc2
        · decide
        · rcases List.mem_cons.mp hc2 with rfl | hc3
          · decide
          · cases hc3)
    (by intro c hbf
        simp [clipSplit, hbf, clipLen])
    (by norm_num [clipSplit, clipLen, boxIntersects, cellA, cellB, edgeAB])).2.1
  rw [h]
  norm_num

/-! ### C4 — failure containment is per batch, not per pair -/

/-- Claim C4 counterexample.  One cell, one malformed edge (`edgeBad`, whose
clip raises) and one well-formed edge (`edgeGood`, clipping to 500 m in the
cell) are processed in the same batch: the whole batch is skipped, the cell
gets road density `0`, and the good pair's 0.5 km/km² contribution — which
the claim says must survive — is lost. -/
theorem c4_counterexample :
    compute_road_density clipBadGood [cellWide] [edgeBad, edgeGood] 5000 = [0] ∧
    clipBadGood edgeGood cellWide = .line 500 ∧
    (500 : ℚ) / 1000 / 1 ≠ 0 := by
  refine ⟨?_, ?_, by norm_num⟩
  · norm_num [compute_road_density, road_length_km, chunkList, batchKm,
      batchCandidates, totalBounds, mergeBox, boxIntersects, minQ, maxQ,
      clipBadGood, cellWide, edgeBad, edgeGood, clipLen, List.flatMap]
  · norm_num [clipBadGood, edgeGood]

/-- Claim C4, amended.  A failing clip skips the contributions of its whole
batch, not only of the failing pair: the computation never aborts (every
cell still receives a value), batches with no failing pair contribute their
full apportioned sums, and a batch containing a failing candidate/cell pair
contributes zero for all its cells — including other, well-formed pairs of
that same batch. -/
theorem c4_failure_batch_scope (clip : RoadEdge → HexCell → ClipResult)
    (cells : List HexCell) (edges : List RoadEdge) (k : ℕ)
    (hbb : ∀ e ∈ edges, ∀ c : HexCell,
      boxIntersects e.bbox c.bbox = false → clipLen (clip e c) = 0) :
    (compute_road_density clip cells edges k).length = cells.length ∧
    (edges.isEmpty = false →
      road_length_km clip cells edges k = (chunkList k cells).flatMap (batchKm clip edges)) ∧
    (∀ batch ∈ chunkList k cells,
      (∀ e ∈ edges, ∀ c ∈ batch, clip e c ≠ .errored) →
      batchKm clip edges batch = batch.map (idealRoadKm clip edges)) ∧
    (∀ batch ∈ chunkList k cells,
      (∃ e ∈ batchCandidates edges batch, ∃ c ∈ batch, clip e c = .errored) →
      batchKm clip edges batch = batch.map fun _ => 0) := by
  refine ⟨compute_road_density_length clip cells edges k, ?_, ?_, ?_⟩
  · intro hne
    rw [road_length_km, if_neg (by rw [hne]; exact Bool.false_ne_true)]
  · intro batch _ hnoerr
    exact batchKm_eq_ideal clip edges batch hnoerr hbb
  · intro batch _ hex
    rcases hex with ⟨e, he, c, hc, hclip⟩
    have hne : (batchCandidates edges batch).isEmpty = false := by
      cases hcand : batchCandidates edges batch with
      | nil => rw [hcand] at he; cases he
      | cons a as => rfl
    have hany : ((batchCandidates edges batch).any fun e =>
        batch.any fun c => decide (clip e c = .errored)) = true :=
      List.any_eq_true.mpr ⟨e, he,
        List.any_eq_true.mpr ⟨c, hc, decide_eq_true hclip⟩⟩
    rw [batchKm, if_neg (by rw [hne]; exact Bool.false_ne_true), if_pos hany]

/-- Witness for C4's amended theorem: the error-free batch `[cellB]` keeps
its full apportioned contribution. -/
theorem c4_witness :
    batchKm clipSplit [edgeAB] [cellB] = [cellB].map (idealRoadKm clipSplit [edgeAB]) := by
  have hmem : [cellB] ∈ chunkList 1 [cellB] := by
    rw [show chunkList 1 [cellB] = [[cellB]] from by simp [chunkList]]
    exact List.mem_singleton.mpr rfl
  have h := (c4_failure_batch_scope clipSplit [cellB] [edgeAB] 1
    (by intro e he c hbf
        rw [List.mem_singleton.mp he] at hbf ⊢
        simp [clipSplit, hbf, clipLen])).2.2.1 [cellB] hmem
  apply h
  intro e he c hc
  rw [List.mem_singleton.mp he]
  rcases List.mem_cons.mp hc with rfl | hc2
  · decide
  · cases hc2

/-! ### C7 — batch-size independence -/

/-- Claim C7 counterexample.  With a malformed geometry in the input (the
clip of `edgeAB` against `cellA` raises), batch size 1 confines the skip to
`cellA`'s batch while batch size 2 wipes out `cellB`'s contribution too, so
the per-cell densities differ between the two batch sizes. -/
theorem c7_counterexample :
    compute_road_density clipErrA [cellA, cellB] [edgeAB] 1 ≠
      compute_road_density clipErrA [cellA, cellB] [edgeAB] 2 := by
  have h1 : compute_road_density clipErrA [cellA, cellB] [edgeAB] 1 = [0, 1/2] := by
    norm_num [compute_road_density, road_length_km, chunkList, batchKm,
      batchCandidates, totalBounds, mergeBox, boxIntersects, minQ, maxQ,
      clipErrA, cellA, cellB, edgeAB, clipLen, clip_line_ne_errored]
  have h2 : compute_road_density clipErrA [cellA, cellB] [edgeAB] 2 = [0, 0] := by
    norm_num [compute_road_density, road_length_km, chunkList, batchKm,
      batchCandidates, totalBounds, mergeBox, boxIntersects, minQ, maxQ,
      clipErrA, cellA, cellB, edgeAB, clipLen, clip_line_ne_errored]
  rw [h1, h2]
  norm_num

/-- Claim C7, amended.  As long as no clip operation fails, the per-cell
road densities are independent of the batch size (both equal the
batching-free apportionment `idealRoadKm`); when a clip fails, the skip is
batch-scoped (C4), so different batch sizes can differ. -/
theorem c7_batch_independence (clip : RoadEdge → HexCell → ClipResult)
    (cells : List HexCell) (edges : List RoadEdge) (k1 k2 : ℕ)
    (hk1 : 1 ≤ k1) (hk2 : 1 ≤ k2)
    (hnoerr : ∀ e ∈ edges, ∀ c ∈ cells, clip e c ≠ .errored)
    (hbb : ∀ e ∈ edges, ∀ c : HexCell,
      boxIntersects e.bbox c.bbox = false → clipLen (clip e c) = 0) :
    compute_road_density clip cells edges k1 = compute_road_density clip cells edges k2 := by
  rw [compute_road_density, compute_road_density,
    road_length_km_eq_ideal clip cells edges k1 hnoerr hbb,
    road_length_km_eq_ideal clip cells edges k2 hnoerr hbb]

/-- Witness for C7: with the 300/700 split oracle (no failures), batch sizes
1 and 2 agree on the two concrete cells. -/
theorem c7_witness :
    compute_road_density clipSplit [cellA, cellB] [edgeAB] 1 =
      compute_road_density clipSplit [cellA, cellB] [edgeAB] 2 := by
  apply c7_batch_independence clipSplit [cellA, cellB] [edgeAB] 1 2 (by norm_num) (by norm_num)
  · intro e he c hc
    rw [List.mem_singleton.mp he]
    rcases List.mem_cons.mp hc with rfl | hc2
    · decide
    · rcases List.mem_cons.mp hc2 with rfl | hc3
      · decide
      · cases hc3
  · intro e he c hbf
    rw [List.mem_singleton.mp he] at hbf ⊢
    simp [clipSplit, hbf, clipLen]

/-! ### C8 — density totality, non-negativity, empty inputs -/

theorem forall₂_map_self {α β : Type} {R : α → β → Prop} (l : List α) (f : α → β)
    (h : ∀ c ∈ l, R c (f c)) : List.Forall₂ R l (l.map f) := by
  induction l with
  | nil => exact List.Forall₂.nil
  | cons c cs ih =>
    rw [List.map_cons]
    exact List.Forall₂.cons (h c (List.mem_cons_self _ _))
      (ih fun x hx => h x (List.mem_cons_of_mem _ hx))

theorem forall₂_append_compat {α β : Type} {R : α → β → Prop} :
    ∀ {l₁ u₁ : List α} {l₂ u₂ : List β}, List.Forall₂ R l₁ l₂ → List.Forall₂ R u₁ u₂ →
      List.Forall₂ R (l₁ ++ u₁) (l₂ ++ u₂) := by
  intro l₁ u₁ l₂ u₂ h1 h2
  induction h1 with
  | nil => exact h2
  | cons hab _ ih => exact List.Forall₂.cons hab ih

theorem forall₂_flatMap {α β : Type} {P : α → β → Prop} (f : List α → List β) :
    ∀ L : List (List α), (∀ b ∈ L, List.Forall₂ P b (f b)) →
      List.Forall₂ P L.flatten (L.flatMap f) := by
  intro L
  induction L with
  | nil => intro _; exact List.Forall₂.nil
  | cons b bs ih =>
    intro h
    rw [List.flatten_cons, List.flatMap_cons]
    exact forall₂_append_compat (h b (List.mem_cons_self _ _))
      (ih fun x hx => h x (List.mem_cons_of_mem _ hx))

theorem forall₂_zipWith_right {α β γ : Type} {P : α → β → Prop} {R : α → γ → Prop}
    (f : α → β → γ) :
    ∀ {l₁ : List α} {l₂ : List β}, (∀ a ∈ l₁, ∀ b, P a b → R a (f a b)) →
      List.Forall₂ P l₁ l₂ → List.Forall₂ R l₁ (List.zipWith f l₁ l₂) := by
  intro l₁ l₂ h hf
  induction hf with
  | nil => exact List.Forall₂.nil
  | @cons a b t₁ t₂ hab _ ih =>
    exact List.Forall₂.cons (h a (List.mem_cons_self _ _) b hab)
      (ih fun x hx b2 hb2 => h x (List.mem_cons_of_mem _ hx) b2 hb2)

theorem clipLen_nonneg (clip : RoadEdge → HexCell → ClipResult)
    (hlen : ∀ e c len, clip e c = ClipResult.line len → 0 ≤ len)
    (e : RoadEdge) (c : HexCell) : 0 ≤ clipLen (clip e c) := by
  cases hc : clip e c with
  | line len => exact hlen e c len hc
  | errored => exact le_refl 0
  | nonLine => exact le_refl 0
  | empty => exact le_refl 0

/-- For each cell of a batch, the batch contribution is non-negative and
vanishes when no edge clips to a positive length in that cell. -/
theorem batchKm_forall₂ (clip : RoadEdge → HexCell → ClipResult)
    (edges : List RoadEdge) (batch : List HexCell)
    (hlen : ∀ e c len, clip e c = ClipResult.line len → 0 ≤ len) :
    List.Forall₂ (fun c km => 0 ≤ km ∧ ((∀ e ∈ edges, clipLen (clip e c) = 0) → km = 0))
      batch (batchKm clip edges batch) := by
  rw [batchKm]
  split_ifs with h1 h2
  · exact forall₂_map_self _ _ fun c _ => ⟨le_refl 0, fun _ => rfl⟩
  · exact forall₂_map_self _ _ fun c _ => ⟨le_refl 0, fun _ => rfl⟩
  · apply forall₂_map_self
    intro c _
    constructor
    · apply div_nonneg _ (by norm_num)
      apply List.sum_nonneg
      intro x hx
      rcases List.mem_map.mp hx with ⟨e, _, rfl⟩
      exact clipLen_nonneg clip hlen e c
    · intro hz
      rw [List.sum_eq_zero, zero_div]
      intro x hx
      rcases List.mem_map.mp hx with ⟨e, he, rfl⟩
      exact hz e (List.mem_filter.mp he).1

/-- Claim C8.  Each of the three density computations returns one value per
cell (no cell dropped), every returned density is non-negative, an empty
feature collection yields all zeros without error, and a cell untouched by
any feature gets exactly `0`. -/
theorem c8_density_totality (locate : PointFeature → HexCell → PtLoc)
    (cells : List HexCell) (pts sigs : List PointFeature)
    (clip : RoadEdge → HexCell → ClipResult) (edges : List RoadEdge) (k : ℕ)
    (harea : ∀ c ∈ cells, 0 < c.hex_area_km2)
    (hlen : ∀ e c len, clip e c = ClipResult.line len → 0 ≤ len) :
    (compute_intersection_density locate cells pts).length = cells.length ∧
    (compute_signal_density locate cells sigs).length = cells.length ∧
    (compute_road_density clip cells edges k).length = cells.length ∧
    (pts = [] → compute_intersection_density locate cells pts = cells.map fun _ => 0) ∧
    (sigs = [] → compute_signal_density locate cells sigs = cells.map fun _ => 0) ∧
    (edges = [] → compute_road_density clip cells edges k = cells.map fun _ => 0) ∧
    List.Forall₂ (fun c d => 0 ≤ d ∧ ((∀ p ∈ pts, within locate p c = false) → d = 0))
      cells (compute_intersection_density locate cells pts) ∧
    List.Forall₂ (fun c d => 0 ≤ d ∧ ((∀ p ∈ sigs, within locate p c = false) → d = 0))
      cells (compute_signal_density locate cells sigs) ∧
    List.Forall₂ (fun c d => 0 ≤ d ∧ ((∀ e ∈ edges, clipLen (clip e c) = 0) → d = 0))
      cells (compute_road_density clip cells edges k) := by
  have hzero : ∀ c ∈ cells, (0 : ℚ) ≤ 0 ∧ (True → (0 : ℚ) = 0) :=
    fun _ _ => ⟨le_refl 0, fun _ => rfl⟩
  have hptF : ∀ (qs : List PointFeature),
      List.Forall₂ (fun c d => 0 ≤ d ∧ ((∀ p ∈ qs, within locate p c = false) → d = 0))
        cells (if qs.isEmpty then cells.map fun _ => 0
          else cells.map fun c => ((qs.countP fun p => within locate p c : ℕ) : ℚ) / c.hex_area_km2) := by
    intro qs
    split_ifs with hq
    · exact forall₂_map_self _ _ fun c _ => ⟨le_refl 0, fun _ => rfl⟩
    · apply forall₂_map_self
      intro c hc
      constructor
      · exact div_nonneg (by positivity) (le_of_lt (harea c hc))
      · intro hnone
        rw [List.countP_eq_zero.mpr fun p hp => by rw [hnone p hp]; exact Bool.false_ne_true]
        norm_num
  refine ⟨?_, ?_, compute_road_density_length clip cells edges k, ?_, ?_, ?_, ?_, ?_, ?_⟩
  · rw [compute_intersection_density]
    split_ifs <;> rw [List.length_map]
  · rw [compute_signal_density]
    split_ifs <;> rw [List.length_map]
  · intro h
    rw [h, compute_intersection_density]
    rfl
  · intro h
    rw [h, compute_signal_density]
    rfl
  · intro h
    rw [h, compute_road_density, road_length_km]
    have hc : ([] : List RoadEdge).isEmpty = true := rfl
    rw [if_pos hc]
    rw [List.zipWith_map_right, List.zipWith_same]
    apply List.map_congr_left
    intro c _
    rw [zero_div]
  · rw [compute_intersection_density]
    exact hptF pts
  · rw [compute_signal_density]
    by_cases hs : sigs.isEmpty = true
    · rw [if_pos hs]
      exact forall₂_map_self _ _ fun c _ => ⟨le_refl 0, fun _ => rfl⟩
    · rw [if_neg hs]
      have h := hptF (sigs.filter (·.is_point_geom))
      apply List.Forall₂.imp _ h
      · intro c d hd
        refine ⟨hd.1, fun hnone => hd.2 ?_⟩
        intro p hp
        exact hnone p (List.mem_filter.mp hp).1
  · rw [compute_road_density]
    apply forall₂_zipWith_right (fun c km => km / c.hex_area_km2)
      (P := fun c km => 0 ≤ km ∧ ((∀ e ∈ edges, clipLen (clip e c) = 0) → km = 0))
    · intro c hc km hkm
      exact ⟨div_nonneg hkm.1 (le_of_lt (harea c hc)),
        fun hz => by rw [hkm.2 hz, zero_div]⟩
    · rw [road_length_km]
      split_ifs with he
      · exact forall₂_map_self _ _ fun c _ => ⟨le_refl 0, fun _ => rfl⟩
      · have h := forall₂_flatMap (batchKm clip edges) (chunkList k cells)
          fun b _ => batchKm_forall₂ clip edges b hlen
        rw [chunkList_join] at h
        exact h

/-- Witness for C8: empty collections on one unit cell give density `[0]`
for each metric. -/
theorem c8_witness :
    compute_intersection_density locateInterior [cellA] [] = [0] ∧
    compute_road_density clipNone [cellA] [] 1 = [0] := by
  have h := c8_density_totality locateInterior [cellA] [] [] clipNone [] 1
    (by intro c hc
        rw [List.mem_singleton.mp hc]
        norm_num [cellA])
    (by intro e c len h
        cases h)
  exact ⟨by rw [h.2.2.2.1 rfl]; rfl, by rw [h.2.2.2.2.2.1 rfl]; rfl⟩

/-! ### C10 — boundary points are counted in no cell -/

/-- Claim C10.  A point that lies in no cell's interior (in particular a
point exactly on a shared cell boundary, which shapely's `within` —
interior containment — rejects for every incident cell) is assigned to zero
cells by the `predicate="within"` spatial joins: it satisfies `within` for
no cell, and removing or adding it changes neither intersection nor signal
densities for any cell. -/
theorem c10_boundary_point_uncounted (locate : PointFeature → HexCell → PtLoc)
    (cells : List HexCell) (pts : List PointFeature) (p : PointFeature)
    (hb : ∀ c ∈ cells, locate p c ≠ .interior) :
    (∀ c ∈ cells, within locate p c = false) ∧
    compute_intersection_density locate cells (p :: pts) =
      compute_intersection_density locate cells pts ∧
    compute_signal_density locate cells (p :: pts) =
      compute_signal_density locate cells pts := by
  have hw : ∀ c ∈ cells, within locate p c = false := by
    intro c hc
    rw [within]
    exact decide_eq_false (hb c hc)
  have hcount : ∀ (qs : List PointFeature), ∀ c ∈ cells,
      ((p :: qs).countP fun q => within locate q c) =
        qs.countP fun q => within locate q c := by
    intro qs c hc
    rw [List.countP_cons, hw c hc]
    rfl
  refine ⟨hw, ?_, ?_⟩
  · rw [compute_intersection_density, compute_intersection_density]
    rw [if_neg (by exact Bool.false_ne_true)]
    by_cases hq : pts.isEmpty = true
    · rw [if_pos hq]
      have hq2 : pts = [] := List.isEmpty_iff.mp hq
      apply List.map_congr_left
      intro c hc
      rw [hcount pts c hc, hq2]
      norm_num
    · rw [if_neg hq]
      apply List.map_congr_left
      intro c hc
      rw [hcount pts c hc]
  · rw [compute_signal_density, compute_signal_density]
    rw [if_neg (by exact Bool.false_ne_true)]
    cases hpg : p.is_point_geom with
    | false =>
      rw [List.filter_cons_of_neg (by rw [hpg]; exact Bool.false_ne_true)]
      by_cases hq : pts.isEmpty = true
      · rw [if_pos hq]
        have hq2 : pts = [] := List.isEmpty_iff.mp hq
        rw [hq2]
        rfl
      · rw [if_neg hq]
    | true =>
      rw [List.filter_cons_of_pos (by rw [hpg])]
      rw [show ((p :: pts.filter (·.is_point_geom)).isEmpty) = false from rfl]
      simp only [Bool.false_eq_true, if_false]
      by_cases hq : pts.isEmpty = true
      · have hq2 : pts = [] := List.isEmpty_iff.mp hq
        subst hq2
        have hie : ([] : List PointFeature).isEmpty = true := rfl
        rw [if_pos hie]
        apply List.map_congr_left
        intro c hc
        rw [show (List.filter (fun x => x.is_point_geom) []) = ([] : List PointFeature) from rfl]
        rw [hcount [] c hc]
        norm_num
      · rw [if_neg hq]
        by_cases hf : (pts.filter (·.is_point_geom)).isEmpty = true
        · rw [if_pos hf]
          have hf2 : pts.filter (·.is_point_geom) = [] := List.isEmpty_iff.mp hf
          apply List.map_congr_left
          intro c hc
          rw [hcount (pts.filter (·.is_point_geom)) c hc, hf2]
          norm_num
        · rw [if_neg hf]
          apply List.map_congr_left
          intro c hc
          rw [hcount (pts.filter (·.is_point_geom)) c hc]

/-- Witness for C10: a point on the boundary of the unit cell leaves the
intersection density unchanged. -/
theorem c10_witness :
    compute_intersection_density locateBoundary [cellA] [aPoint] =
      compute_intersection_density locateBoundary [cellA] [] := by
  exact (c10_boundary_point_uncounted locateBoundary [cellA] [] aPoint
    (by intro c hc h; exact PtLoc.noConfusion h)).2.1

/-! ### C9 — the validator collects and reports every violated check -/

theorem mem_ite_singleton {α : Type} (a b : α) (c : Prop) [Decidable c] :
    (a ∈ if c then [b] else []) ↔ c ∧ a = b := by
  split_ifs with h <;> simp [h]

set_option maxHeartbeats 1600000 in
theorem mem_vFailures (t : VTable) (k : VFailure) :
    k ∈ vFailures t ↔ checkFails t k := by
  rcases t with ⟨rows, su, wse⟩
  rw [vFailures]
  rcases su with _ | b
  · rcases k with _ | col | _ | _ | _ | _ | _ | _ | _ <;>
      first
        | (cases col <;>
            simp [checkFails, mem_ite_singleton, List.mem_filterMap,
              List.countP_pos_iff, List.any_eq_true, List.all_eq_true,
              Option.isNone_iff_eq_none, Option.isSome_iff_ne_none, densityValue])
        | simp [checkFails, mem_ite_singleton, List.mem_filterMap,
            List.countP_pos_iff, List.any_eq_true, List.all_eq_true,
            Option.isNone_iff_eq_none, Option.isSome_iff_ne_none, densityValue]
  · cases b
    · rcases wse with _ | w <;>
        (rcases k with _ | col | _ | _ | _ | _ | _ | _ | _ <;>
          first
            | (cases col <;>
                simp [checkFails, mem_ite_singleton, List.mem_filterMap,
                  List.countP_pos_iff, List.any_eq_true, List.all_eq_true,
                  Option.isNone_iff_eq_none, Option.isSome_iff_ne_none, densityValue])
            | simp [checkFails, mem_ite_singleton, List.mem_filterMap,
                List.countP_pos_iff, List.any_eq_true, List.all_eq_true,
                Option.isNone_iff_eq_none, Option.isSome_iff_ne_none, densityValue])
    · rcases k with _ | col | _ | _ | _ | _ | _ | _ | _ <;>
        first
          | (cases col <;>
              simp [checkFails, mem_ite_singleton, List.mem_filterMap,
                List.countP_pos_iff, List.any_eq_true, List.all_eq_true,
                Option.isNone_iff_eq_none, Option.isSome_iff_ne_none, densityValue])
          | simp [checkFails, mem_ite_singleton, List.mem_filterMap,
              List.countP_pos_iff, List.any_eq_true, List.all_eq_true,
              Option.isNone_iff_eq_none, Option.isSome_iff_ne_none, densityValue]

/-- Claim C9.  `validate_city_output` returns normally exactly when no
acceptance check fails; when it raises, the single aggregate error lists a
failure for a check if and only if that check’s condition holds on the
table (so every violated check is enumerated and no check is short-circuited
by another’s failure); whenever some check fails it raises; and in
particular a table with a negative road-density value makes it raise with
the E1.2 road failure among the reported ones. -/
theorem c9_validator_checks (t : VTable) :
    (validate_city_output t = .ok () ↔ ∀ k, ¬ checkFails t k) ∧
    (∀ l, validate_city_output t = .error l → ∀ k, (k ∈ l ↔ checkFails t k)) ∧
    ((∃ k, checkFails t k) → ∃ l, validate_city_output t = .error l) ∧
    ((∃ r ∈ t.rows, r.road_density < 0) →
      ∃ l, validate_city_output t = .error l ∧ VFailure.e12 .road ∈ l) := by
  have hnil : vFailures t = [] ↔ ∀ k, ¬ checkFails t k := by
    constructor
    · intro h k hk
      have hmem := (mem_vFailures t k).mpr hk
      rw [h] at hmem
      cases hmem
    · intro h
      cases hv : vFailures t with
      | nil => rfl
      | cons a l =>
        exact absurd ((mem_vFailures t a).mp (hv ▸ List.mem_cons_self a l)) (h a)
  refine ⟨?_, ?_, ?_, ?_⟩
  · rw [validate_city_output]
    split_ifs with h
    · exact iff_of_true rfl (hnil.mp h)
    · constructor
      · intro hok
        cases hok
      · intro hall
        exact absurd (hnil.mpr hall) h
  · intro l hl k
    rw [validate_city_output] at hl
    by_cases h : vFailures t = []
    · rw [if_pos h] at hl
      cases hl
    · rw [if_neg h] at hl
      cases hl
      exact mem_vFailures t k
  · intro ⟨k, hk⟩
    rw [validate_city_output]
    split_ifs with h
    · exact absurd hk (hnil.mp h k)
    · exact ⟨vFailures t, rfl⟩
  · intro ⟨r, hr, hneg⟩
    have hk : checkFails t (.e12 .road) := ⟨r, hr, hneg⟩
    rw [validate_city_output]
    split_ifs with h
    · exact absurd hk (hnil.mp h _)
    · exact ⟨vFailures t, rfl, (mem_vFailures t _).mpr hk⟩

/-- Witness for C9: the clean one-row table passes the validator. -/
theorem c9_witness : validate_city_output exampleCleanTable = .ok () := by
  apply (c9_validator_checks exampleCleanTable).1.mpr
  intro k
  cases k with
  | e12 col =>
      cases col <;> (simp only [checkFails]; decide)
  | e15nonNaN => exact fun hc => Bool.noConfusion (Option.some.inj hc.1)
  | e15weight => exact fun hc => Bool.noConfusion (Option.some.inj hc.1)
  | e15allNaN =>
      intro hc
      have h2 := hc.2 _ (List.mem_singleton.mpr rfl)
      cases h2
  | e11 =>
      simp only [checkFails]
      decide
  | e13 =>
      simp only [checkFails]
      decide
  | e14 =>
      simp only [checkFails]
      decide
  | e16 =>
      simp only [checkFails]
      decide
  | e17 =>
      simp only [checkFails]
      decide

end Urbanicity
